import Mathlib

/-!
Verification of the janeiro effect library (sluukkonen/janeiro).

The repository contains two snapshots of the same design:

* the trampolined interpreter in src/src/Fiber.ts, which evaluates a
  tagged-union description tree (tags Done, Success, Failure, FlatMap,
  Catch, FromFunction, FromPromise) with an explicit continuation stack;
* the promise-based combinator class in src/src/RIO.ts (and its clones in
  src/unnamed/part_003 and part_004), whose effects are functions
  (env: R) => Promise<A>.

Part A below embeds the description model and the Fiber interpreter as a
small-step machine with fuel.  Part B embeds the promise-based combinator
layer shallowly: an effect is a function from an environment and a mutable
JavaScript state to a final state, an elapsed virtual time (summing the
delays awaited on the path actually taken), and an outcome (resolution or
rejection).  User-supplied JavaScript callbacks are modelled as synchronous
state transformers that may throw.

To keep the two embeddings of the homonymous source class apart, the
tagged-union description nodes are named FEff and the promise-based class
Eff; every definition's doc comment names the source construct it embeds.
-/

namespace Janeiro

/-- The tagged-union effect description nodes.
Modelled from the spec: the module the interpreter imports (the tagged-union
version of the effect class, with node classes Done, Success, Failure,
FlatMap, Catch, FromFunction, FromPromise and a tag field) is not among the
provided sources; only its interpreter (src/src/Fiber.ts) and its tests are.
The constructors follow spec section 3 and the fields the interpreter reads:
value, error, effect, and fn.  Values, errors and environments share one
untyped universe V (the source uses unknown for all three).  A user callback
is a function that either returns (Except.ok) or throws (Except.error). -/
inductive FEff (V : Type) where
  | Done : V → FEff V
  | Success : V → FEff V
  | Failure : V → FEff V
  | FlatMap : FEff V → (V → Except V (FEff V)) → FEff V
  | Catch : FEff V → (V → Except V (FEff V)) → FEff V
  | FromFunction : (V → Except V V) → FEff V
  | FromPromise : (V → Except V V) → FEff V

/-- A continuation-stack entry of the Fiber.  src/src/Fiber.ts pushes the
FlatMap or Catch node itself; what the interpreter later reads is its tag
and its fn field, which is what a frame stores here.  The list head is the
top of the stack (a push is a cons). -/
inductive Continuation (V : Type) where
  | bind : (V → Except V (FEff V)) → Continuation V
  | rescue : (V → Except V (FEff V)) → Continuation V

/-- True exactly on a Bind (FlatMap) frame. -/
def Continuation.isBind {V : Type} : Continuation V → Bool
  | .bind _ => true
  | .rescue _ => false

namespace Fiber

/-- Fiber.popContinuation (src/src/Fiber.ts lines 100-106): pop frames,
discarding Catch frames, until a FlatMap frame is found (returned together
with the stack below it) or the stack empties. -/
def popContinuation {V : Type} :
    List (Continuation V) → Option ((V → Except V (FEff V)) × List (Continuation V))
  | [] => none
  | .rescue _ :: rest => popContinuation rest
  | .bind fn :: rest => some (fn, rest)

/-- Fiber.unwindStack (src/src/Fiber.ts lines 92-98): pop frames, discarding
FlatMap frames, until a Catch frame is found (returned together with the
stack below it) or the stack empties. -/
def unwindStack {V : Type} :
    List (Continuation V) → Option ((V → Except V (FEff V)) × List (Continuation V))
  | [] => none
  | .bind _ :: rest => unwindStack rest
  | .rescue fn :: rest => some (fn, rest)

/-- Fiber.runContinuation (src/src/Fiber.ts lines 81-85) together with the
try/catch wrapped around its call sites: pop to the next FlatMap frame; with
an empty result the final value is wrapped in Done (the stack is exhausted
at that point); otherwise the frame's fn is applied, a thrown error
becoming a Failure node (the caller's catch block). -/
def runContinuation {V : Type} (value : V) (stack : List (Continuation V)) :
    FEff V × List (Continuation V) :=
  match popContinuation stack with
  | none => (.Done value, [])
  | some (fn, rest) =>
    match fn value with
    | .ok eff => (eff, rest)
    | .error e => (.Failure e, rest)

/-- The interpreter state: the current node and the continuation stack. -/
def State (V : Type) : Type := FEff V × List (Continuation V)

/-- Outcome of one iteration of the interpreter loop: either a new state or
termination (Except.ok models a resolved run; Except.error a rejected one,
the throw in handleError included). -/
inductive StepResult (V : Type) where
  | next : State V → StepResult V
  | halt : Except V V → StepResult V

/-- One iteration of the while loop of Fiber.run (src/src/Fiber.ts lines
29-78), dispatching on the tag of the current node.  The Failure case is
Fiber.handleError (lines 108-112): unwind to the nearest Catch frame and
apply its handler, or terminate with the error when none exists; a handler
that throws rejects the whole run (the call is not inside a try block). -/
def step {V : Type} (env : V) : State V → StepResult V
  | (.Done v, _) => .halt (.ok v)
  | (.Success v, s) => .next (runContinuation v s)
  | (.Failure e, s) =>
    match unwindStack s with
    | none => .halt (.error e)
    | some (handler, rest) =>
      match handler e with
      | .ok eff => .next (eff, rest)
      | .error e2 => .halt (.error e2)
  | (.FlatMap eff fn, s) => .next (eff, .bind fn :: s)
  | (.Catch eff fn, s) => .next (eff, .rescue fn :: s)
  | (.FromFunction fn, s) =>
    match fn env with
    | .ok v => .next (runContinuation v s)
    | .error e => .next (.Failure e, s)
  | (.FromPromise fn, s) =>
    match fn env with
    | .ok v => .next (runContinuation v s)
    | .error e => .next (.Failure e, s)

/-- Fiber.run as iteration of the single-step function, with fuel counting
loop iterations.  The loop itself is a flat iteration: recursion happens
only on the fuel, never on the structure of the chain, mirroring the
iterative (non-recursive) trampoline of the source. -/
def run {V : Type} (env : V) : Nat → State V → Option (Except V V)
  | 0, _ => none
  | fuel + 1, st =>
    match step env st with
    | .halt r => some r
    | .next st2 => run env fuel st2

end Fiber

/-- The continuation used by each step of the claim C1 chain: it receives
the accumulator and returns a Success node holding its successor. -/
def incCont : Nat → Except Nat (FEff Nat) :=
  fun v => .ok (.Success (v + 1))

/-- The chain of n flatMap steps built over a successful value 0, each step
incrementing the accumulator: chain (n+1) is the Bind node FlatMap (chain n)
incCont, exactly what flatMap builds per spec section 4.1. -/
def chain : Nat → FEff Nat
  | 0 => .Success 0
  | n + 1 => .FlatMap (chain n) incCont

/-- Modelled from the spec: the combinator layer of the tagged-union effect
module (imported by src/src/Fiber.ts, exercised by the identity assertions
expect(effect.flatMap(fail)).toBe(effect) in the test snapshot) is absent
from the provided sources.  Spec section 4.1: flatMap(fn) builds
Bind(this, fn) directly, and calling flatMap on an already-materialized
Error node returns that same node unchanged without invoking the supplied
function.  Returning the same node (the source's return this) is rendered
as returning the argument's own constructor application unchanged. -/
def FEff.flatMapM {V : Type} : FEff V → (V → Except V (FEff V)) → FEff V
  | .Failure e, _ => .Failure e
  | eff, fn => .FlatMap eff fn

/-- Modelled from the spec: spec section 4.1 — map(fn) builds
Bind(this, x => Value(fn(x))); on an already-materialized Error node it
returns that same node unchanged without invoking fn.  A throw inside fn
surfaces as the continuation throwing, hence the Except.map. -/
def FEff.mapM {V : Type} : FEff V → (V → Except V V) → FEff V
  | .Failure e, _ => .Failure e
  | eff, fn => .FlatMap eff (fun v => Except.map FEff.Success (fn v))

/-!
## Part B: the promise-based combinator class (src/src/RIO.ts)

An effect of that class is a function (env: R) => Promise<A>.  It is
modelled as a function from the environment and the shared mutable
JavaScript state to the final state, the elapsed virtual time in
milliseconds (summing the delays awaited on the path actually executed),
and the settlement (ok models a resolution, error a rejection).  A
user-supplied synchronous callback is a state transformer that may throw.
For the concurrent combinators (Promise.all and Promise.race), every branch
is started from the shared state at the moment the combinator runs and the
join settles according to the branches' settlement times, earlier list
position winning ties, mirroring the order in which the source attaches the
promise handlers; state written inside concurrently running branches is
outside this model (no claim observes it).
-/

/-- Untyped JavaScript error values travelling along the rejection channel:
either the TimeoutError synthesized by timeout (src/unnamed/part_003 lines
1-6, a class carrying the configured duration in its timeout field), or any
other opaque user error. -/
inductive EV where
  | timeoutError (milliseconds : Nat) : EV
  | custom (n : Nat) : EV
deriving DecidableEq

/-- A synchronous JavaScript callback: given an argument and the shared
state it returns the new state and either a result (ok) or a throw
(error). -/
def JSFun (σ α β : Type) : Type := α → σ → σ × Except EV β

/-- The promise-based effect class (class RIO of src/src/RIO.ts, private
field unsafeRun : (env: R) => PromiseLike<A>), in the semantic rendering
described above. -/
def Eff (ρ σ α : Type) : Type := ρ → σ → σ × Nat × Except EV α

namespace Eff

/-- RIO.success (src/src/RIO.ts lines 278-280): an immediately resolved
effect. -/
def success {ρ σ α : Type} (value : α) : Eff ρ σ α := fun _ s => (s, 0, .ok value)

/-- RIO.failure (src/src/RIO.ts lines 293-295): an immediately rejected
effect. -/
def failure {ρ σ α : Type} (error : EV) : Eff ρ σ α := fun _ s => (s, 0, .error error)

/-- RIO.fromFunction (src/src/RIO.ts lines 324-326): run the synchronous
function on the environment; a throw becomes a rejection. -/
def fromFunction {ρ σ α : Type} (fn : JSFun σ ρ α) : Eff ρ σ α := fun env s =>
  match fn env s with
  | (s1, .ok v) => (s1, 0, .ok v)
  | (s1, .error e) => (s1, 0, .error e)

/-- The map method (src/src/RIO.ts lines 88-90): run this effect, then apply
fn to its value; a rejection passes through, a throw inside fn rejects. -/
def map {ρ σ α β : Type} (self : Eff ρ σ α) (fn : JSFun σ α β) : Eff ρ σ β := fun env s =>
  match self env s with
  | (s1, t, .ok v) =>
    match fn v s1 with
    | (s2, .ok b) => (s2, t, .ok b)
    | (s2, .error e) => (s2, t, .error e)
  | (s1, t, .error e) => (s1, t, .error e)

/-- The flatMap method (src/src/RIO.ts lines 104-108): run this effect,
apply fn to its value and run the effect fn returns; a rejection passes
through and a throw inside fn rejects. -/
def flatMap {ρ σ α β : Type} (self : Eff ρ σ α) (fn : JSFun σ α (Eff ρ σ β)) :
    Eff ρ σ β := fun env s =>
  match self env s with
  | (s1, t, .ok v) =>
    match fn v s1 with
    | (s2, .ok eff) =>
      match eff env s2 with
      | (s3, t2, r) => (s3, t + t2, r)
    | (s2, .error e) => (s2, t, .error e)
  | (s1, t, .error e) => (s1, t, .error e)

/-- The catch method (src/src/RIO.ts lines 123-131): run this effect and
return its result if it resolves; on rejection apply the catcher to the
error and run the effect it returns (a throw inside the catcher rejects). -/
def catchE {ρ σ α : Type} (self : Eff ρ σ α) (catcher : JSFun σ EV (Eff ρ σ α)) :
    Eff ρ σ α := fun env s =>
  match self env s with
  | (s1, t, .ok v) => (s1, t, .ok v)
  | (s1, t, .error e) =>
    match catcher e s1 with
    | (s2, .ok eff) =>
      match eff env s2 with
      | (s3, t2, r) => (s3, t + t2, r)
    | (s2, .error e2) => (s2, t, .error e2)

/-- The orElse method (src/src/RIO.ts lines 146-148): syntactic sugar for
catch with a constant catcher. -/
def orElse {ρ σ α : Type} (self : Eff ρ σ α) (that : Eff ρ σ α) : Eff ρ σ α :=
  catchE self (fun _ s => (s, .ok that))

/-- The finally method (src/src/RIO.ts lines 160-168): run that after this
effect settles either way; per the semantics of a finally block, a
rejection raised by that overrides, otherwise this effect's settlement
stands. -/
def finallyE {ρ σ α β : Type} (self : Eff ρ σ α) (that : Eff ρ σ β) : Eff ρ σ α := fun env s =>
  match self env s with
  | (s1, t, r) =>
    match that env s1 with
    | (s2, t2, .ok _) => (s2, t + t2, r)
    | (s2, t2, .error e) => (s2, t + t2, .error e)

/-- The delay method (src/src/RIO.ts lines 196-201): await the given number
of milliseconds, then run this effect. -/
def delay {ρ σ α : Type} (self : Eff ρ σ α) (milliseconds : Nat) : Eff ρ σ α := fun env s =>
  match self env s with
  | (s1, t, r) => (s1, milliseconds + t, r)

/-- The provide method (src/src/RIO.ts lines 216-218): fix the environment
now; the environment the result is later run with is discarded. -/
def provide {ρ ρ2 σ α : Type} (self : Eff ρ σ α) (env : ρ) : Eff ρ2 σ α :=
  fun _ s => self env s

/-- The tap method (src/src/RIO.ts lines 232-238): run this effect, run the
effect fn returns on its value, and resolve with the original value,
discarding the side effect's result; a rejection of the side effect (or a
throw inside fn) rejects the whole effect. -/
def tap {ρ σ α β : Type} (self : Eff ρ σ α) (fn : JSFun σ α (Eff ρ σ β)) :
    Eff ρ σ α := fun env s =>
  match self env s with
  | (s1, t, .ok v) =>
    match fn v s1 with
    | (s2, .ok eff) =>
      match eff env s2 with
      | (s3, t2, .ok _) => (s3, t + t2, .ok v)
      | (s3, t2, .error e) => (s3, t + t2, .error e)
    | (s2, .error e) => (s2, t, .error e)
  | (s1, t, .error e) => (s1, t, .error e)

/-- The loop body of RIO.mapSeries (src/src/RIO.ts lines 391-402, the same
code as traverse in src/unnamed/part_003 lines 376-387): apply fn to the
element, await the resulting effect, push its value, and continue with the
rest; the first rejection (or throw inside fn) aborts the loop. -/
def mapSeriesGo {ρ σ α β : Type} (env : ρ) (fn : JSFun σ α (Eff ρ σ β)) :
    List α → σ → σ × Nat × Except EV (List β)
  | [], s => (s, 0, .ok [])
  | v :: vs, s =>
    match fn v s with
    | (s1, .ok eff) =>
      match eff env s1 with
      | (s2, t, .ok b) =>
        match mapSeriesGo env fn vs s2 with
        | (s3, t2, .ok bs) => (s3, t + t2, .ok (b :: bs))
        | (s3, t2, .error e) => (s3, t + t2, .error e)
      | (s2, t, .error e) => (s2, t, .error e)
    | (s1, .error e) => (s1, 0, .error e)

/-- RIO.mapSeries: sequential traversal, one element at a time, strictly
left to right. -/
def mapSeries {ρ σ α β : Type} (values : List α) (fn : JSFun σ α (Eff ρ σ β)) :
    Eff ρ σ (List β) := fun env s => mapSeriesGo env fn values s

/-- The identity helper of src/unnamed/part_000 (util.ts), as the callback
shape the traversals expect. -/
def identityFn {σ α : Type} : JSFun σ α α := fun a s => (s, .ok a)

/-- RIO.allSeries (src/src/RIO.ts lines 439-446): mapSeries with the
identity function. -/
def allSeries {ρ σ α : Type} (effects : List (Eff ρ σ α)) : Eff ρ σ (List α) :=
  mapSeries effects identityFn

/-- The construction loop of the static RIO.map (src/src/RIO.ts lines
416-427, the same code as traversePar in src/unnamed/part_003): fn is
applied to every element up front and every resulting effect is started,
regardless of failures among already-started branches; each branch runs
concurrently from the shared state as of its start, and the loop records
each branch's settlement time and settlement.  A throw inside fn aborts the
construction loop itself. -/
def startLoop {ρ σ α β : Type} (env : ρ) (fn : JSFun σ α (Eff ρ σ β)) :
    List α → σ → σ × Except EV (List (Nat × Except EV β))
  | [], s => (s, .ok [])
  | v :: vs, s =>
    match fn v s with
    | (s1, .error e) => (s1, .error e)
    | (s1, .ok eff) =>
      match eff env s1 with
      | (_, t, r) =>
        match startLoop env fn vs s1 with
        | (s2, .error e) => (s2, .error e)
        | (s2, .ok rest) => (s2, .ok ((t, r) :: rest))

/-- Promise.all's rejection: the first rejection in settlement-time order,
the earlier list position winning ties (handlers are attached in list
order). -/
def firstRejection {β : Type} : List (Nat × Except EV β) → Option (Nat × EV)
  | [] => none
  | (t, .error e) :: rest =>
    match firstRejection rest with
    | none => some (t, e)
    | some (t2, e2) => if t2 < t then some (t2, e2) else some (t, e)
  | (_, .ok _) :: rest => firstRejection rest

/-- When every branch resolves, Promise.all settles once the slowest branch
has. -/
def settleTime {β : Type} : List (Nat × Except EV β) → Nat
  | [] => 0
  | (t, _) :: rest => max t (settleTime rest)

/-- The resolved values of the branches, in input order. -/
def okValues {β : Type} : List (Nat × Except EV β) → List β
  | [] => []
  | (_, .ok b) :: rest => b :: okValues rest
  | (_, .error _) :: rest => okValues rest

/-- Promise.all over the started branches: reject with the first rejection
to settle, otherwise collect the values in input order. -/
def promiseAll {β : Type} (results : List (Nat × Except EV β)) :
    Nat × Except EV (List β) :=
  match firstRejection results with
  | some (t, e) => (t, .error e)
  | none => (settleTime results, .ok (okValues results))

/-- The static RIO.map (src/src/RIO.ts lines 416-427): start every
element's effect, then Promise.all the branches. -/
def mapPar {ρ σ α β : Type} (values : List α) (fn : JSFun σ α (Eff ρ σ β)) :
    Eff ρ σ (List β) := fun env s =>
  match startLoop env fn values s with
  | (s1, .error e) => (s1, 0, .error e)
  | (s1, .ok results) =>
    match promiseAll results with
    | (t, r) => (s1, t, r)

/-- RIO.all (src/src/RIO.ts lines 458-465): the static map with the
identity function. -/
def all {ρ σ α : Type} (effects : List (Eff ρ σ α)) : Eff ρ σ (List α) :=
  mapPar effects identityFn

/-- Promise.race's winner: the branch settling first, the earlier list
position winning ties. -/
def firstSettled {σ α : Type} : List (σ × Nat × Except EV α) → Option (σ × Nat × Except EV α)
  | [] => none
  | (s, t, r) :: rest =>
    match firstSettled rest with
    | none => some (s, t, r)
    | some (s2, t2, r2) => if t2 < t then some (s2, t2, r2) else some (s, t, r)

/-- RIO.race (src/src/RIO.ts lines 510-520): start every effect from the
shared state, settle with whichever branch settles first (resolution or
rejection alike).  Promise.race of an empty list never settles; the empty
case below is an arbitrary total-function filler that no theorem uses. -/
def race {ρ σ α : Type} (effects : List (Eff ρ σ α)) : Eff ρ σ α := fun env s =>
  match firstSettled (effects.map (fun eff => eff env s)) with
  | some res => res
  | none => (s, 0, .error (.custom 0))

/-- The timeout method (src/src/RIO.ts lines 178-186): race this effect
against an internally built effect that awaits the configured number of
milliseconds and then rejects with a TimeoutError carrying that duration. -/
def timeout {ρ σ α : Type} (self : Eff ρ σ α) (milliseconds : Nat) : Eff ρ σ α :=
  race [self, fun _ s => (s, milliseconds, .error (.timeoutError milliseconds))]

/-- RIO.bracket (src/src/RIO.ts lines 492-508): await acquire; then run
use(resource) inside a try whose finally awaits release(resource).  The
calls use(resource) and release(resource) are synchronous and may throw; a
rejection (or throw) on the release path overrides the settlement of the
use path, otherwise use's settlement is the result.  If acquire rejects,
neither use nor release is reached. -/
def bracket {ρ σ α β γ : Type} (acquire : Eff ρ σ α) (release : JSFun σ α (Eff ρ σ β))
    (use : JSFun σ α (Eff ρ σ γ)) : Eff ρ σ γ := fun env s =>
  match acquire env s with
  | (s1, t1, .error e) => (s1, t1, .error e)
  | (s1, t1, .ok a) =>
    let u : σ × Nat × Except EV γ :=
      match use a s1 with
      | (s2, .error e) => (s2, 0, .error e)
      | (s2, .ok eff) => eff env s2
    let r : σ × Nat × Except EV β :=
      match release a u.1 with
      | (s3, .error e) => (s3, 0, .error e)
      | (s3, .ok eff) => eff env s3
    (r.1, t1 + u.2.1 + r.2.1,
      match r.2.2 with
      | .ok _ => u.2.2
      | .error e => .error e)

end Eff


/-- Descending through the chain: each FlatMap node costs one loop iteration
and pushes one bind frame; after n iterations the machine sits on Success 0
with n bind frames stacked on top of whatever was there before. -/
theorem run_chain_descend (env : Nat) :
    ∀ (n fuel : Nat) (s : List (Continuation Nat)),
      Fiber.run env (n + fuel) (chain n, s) =
        Fiber.run env fuel (.Success 0, List.replicate n (.bind incCont) ++ s) := by
  intro n
  induction n with
  | zero => intro fuel s; simp [chain]
  | succ n ih =>
    intro fuel s
    have hstep : Fiber.run env (n + 1 + fuel) (chain (n + 1), s) =
        Fiber.run env (n + fuel) (chain n, .bind incCont :: s) := by
      have : n + 1 + fuel = (n + fuel) + 1 := by omega
      rw [this]
      simp [chain, Fiber.run, Fiber.step]
    rw [hstep, ih fuel (.bind incCont :: s)]
    have : List.replicate n (Continuation.bind incCont) ++
        (Continuation.bind incCont :: s) =
        List.replicate (n + 1) (Continuation.bind incCont) ++ s := by
      rw [List.replicate_succ' (n := n)]
      simp
    rw [this]

/-- Ascending: from Success v under k bind frames of the chain, each loop
iteration pops one frame and applies the increment continuation. -/
theorem run_chain_ascend (env : Nat) :
    ∀ (k fuel v : Nat),
      Fiber.run env (k + fuel) (.Success v, List.replicate k (.bind incCont)) =
        Fiber.run env fuel (.Success (v + k), []) := by
  intro k
  induction k with
  | zero => intro fuel v; simp
  | succ k ih =>
    intro fuel v
    have : k + 1 + fuel = (k + fuel) + 1 := by omega
    rw [this, List.replicate_succ]
    have hstep :
        Fiber.step env ((.Success v : FEff Nat), .bind incCont :: List.replicate k (.bind incCont)) =
          .next (.Success (v + 1), List.replicate k (.bind incCont)) := by
      simp [Fiber.step, Fiber.runContinuation, Fiber.popContinuation, incCont]
    rw [Fiber.run, hstep]
    show Fiber.run env (k + fuel) (.Success (v + 1), List.replicate k (.bind incCont)) =
      Fiber.run env fuel (.Success (v + (k + 1)), [])
    rw [ih fuel (v + 1)]
    have : v + 1 + k = v + (k + 1) := by omega
    rw [this]

/-- Helper: the chain of n increments over Success 0 resolves to n in
exactly 2n + 2 loop iterations. -/
theorem chain_resolves (env : Nat) (n : Nat) :
    Fiber.run env (2 * n + 2) (chain n, []) = some (.ok n) := by
  have h1 : 2 * n + 2 = n + (n + 2) := by omega
  rw [h1, run_chain_descend env n (n + 2) []]
  have h2 : List.replicate n (Continuation.bind incCont) ++ ([] : List (Continuation Nat)) =
      List.replicate n (Continuation.bind incCont) := by simp
  rw [h2, run_chain_ascend env n 2 0]
  simp [Fiber.run, Fiber.step, Fiber.runContinuation, Fiber.popContinuation]

/-- Claim C1: for every chain length n (in particular n = 10000), running
the chain of n flatMap steps over Success 0, each step incrementing the
accumulator, resolves to n.  The interpreter is the iteration of the
single-step function Fiber.step on the explicit (current, stack) state, so
only the fuel (number of loop iterations, exactly 2n + 2 here) and the
explicit continuation stack grow with n; the run definition recurses on the
fuel alone, never on the chain, mirroring the iterative trampoline. -/
theorem claim1_flatMap_chain_resolves (env : Nat) :
    (∀ n : Nat, Fiber.run env (2 * n + 2) (chain n, []) = some (.ok n)) ∧
      Fiber.run env (2 * 10000 + 2) (chain 10000, []) = some (.ok 10000) :=
  ⟨fun n => chain_resolves env n, chain_resolves env 10000⟩

/-- A frame whose isBind is true is a bind frame holding some fn. -/
theorem isBind_elim {V : Type} :
    ∀ f : Continuation V, f.isBind = true → ∃ fn, f = .bind fn := by
  intro f hf
  cases f with
  | bind fn => exact ⟨fn, rfl⟩
  | rescue fn => simp [Continuation.isBind] at hf

/-- Unwinding discards every bind frame above the topmost rescue frame and
returns that frame's handler with the stack below it. -/
theorem unwindStack_finds_rescue {V : Type} :
    ∀ (s1 : List (Continuation V)) (h : V → Except V (FEff V)) (s2 : List (Continuation V)),
      (∀ f ∈ s1, f.isBind = true) →
      Fiber.unwindStack (s1 ++ .rescue h :: s2) = some (h, s2) := by
  intro s1
  induction s1 with
  | nil => intro h s2 _; rfl
  | cons f s1 ih =>
    intro h s2 hall
    obtain ⟨fn, rfl⟩ := isBind_elim f (hall f (by simp))
    show Fiber.unwindStack (s1 ++ .rescue h :: s2) = some (h, s2)
    exact ih h s2 (fun g hg => hall g (by simp [hg]))

/-- Unwinding a stack of bind frames only finds no handler. -/
theorem unwindStack_all_bind {V : Type} :
    ∀ s : List (Continuation V), (∀ f ∈ s, f.isBind = true) →
      Fiber.unwindStack s = none := by
  intro s
  induction s with
  | nil => intro _; rfl
  | cons f s ih =>
    intro hall
    obtain ⟨fn, rfl⟩ := isBind_elim f (hall f (by simp))
    show Fiber.unwindStack s = none
    exact ih (fun g hg => hall g (by simp [hg]))

/-- Claim C2: with a Failure node carrying error e as the current node, the
interpreter pops frames, discarding bind (FlatMap) frames, until a rescue
(Catch) frame is found, in which case the handler is applied to e and its
resulting effect becomes the current node of the success path; when the
stack holds no rescue frame at all, the run halts rejecting with exactly
the original error value e, unwrapped and unmodified. -/
theorem claim2_failure_unwinds {V : Type} (env e : V) :
    (∀ (s1 s2 : List (Continuation V)) (h : V → Except V (FEff V)),
        (∀ f ∈ s1, f.isBind = true) →
        Fiber.unwindStack (s1 ++ .rescue h :: s2) = some (h, s2)) ∧
    (∀ (s1 s2 : List (Continuation V)) (h : V → Except V (FEff V)) (eff : FEff V),
        (∀ f ∈ s1, f.isBind = true) → h e = .ok eff →
        Fiber.step env (.Failure e, s1 ++ .rescue h :: s2) = .next (eff, s2)) ∧
    (∀ s : List (Continuation V), (∀ f ∈ s, f.isBind = true) →
        Fiber.step env (.Failure e, s) = .halt (.error e)) := by
  refine ⟨fun s1 s2 h hall => unwindStack_finds_rescue s1 h s2 hall, ?_, ?_⟩
  · intro s1 s2 h eff hall hok
    rw [Fiber.step, unwindStack_finds_rescue s1 h s2 hall]
    show (match h e with
      | Except.ok eff => Fiber.StepResult.next (eff, s2)
      | Except.error e2 => Fiber.StepResult.halt (Except.error e2)) = .next (eff, s2)
    rw [hok]
  · intro s hall
    rw [Fiber.step, unwindStack_all_bind s hall]

/-- Witness for claim C2 at a concrete input: error 5 under one bind frame
above a rescue frame is handled (yielding Success 6); error 5 under a bind
frame only rejects the run with 5 itself. -/
theorem claim2_failure_unwinds_witness :
    Fiber.unwindStack
        [Continuation.bind (fun v => Except.ok (FEff.Success v)),
          Continuation.rescue (fun w => Except.ok (FEff.Success (w + 1)))] =
      some (fun w => Except.ok (FEff.Success (w + 1)), ([] : List (Continuation Nat))) ∧
    Fiber.step 0 (FEff.Failure 5,
        [Continuation.bind (fun v => Except.ok (FEff.Success v)),
          Continuation.rescue (fun w => Except.ok (FEff.Success (w + 1)))]) =
      .next (FEff.Success (5 + 1), []) ∧
    Fiber.step 0 (FEff.Failure 5,
        [Continuation.bind (fun v => Except.ok (FEff.Success v))]) =
      .halt (.error 5) := by
  have hall1 : ∀ f ∈ [Continuation.bind (V := Nat) (fun v => Except.ok (FEff.Success v))],
      f.isBind = true := by
    intro f hf
    simp at hf
    subst hf
    rfl
  refine ⟨?_, ?_, ?_⟩
  · exact (claim2_failure_unwinds (V := Nat) 0 5).1
      [Continuation.bind (fun v => Except.ok (FEff.Success v))] []
      (fun w => Except.ok (FEff.Success (w + 1))) hall1
  · exact (claim2_failure_unwinds (V := Nat) 0 5).2.1
      [Continuation.bind (fun v => Except.ok (FEff.Success v))] []
      (fun w => Except.ok (FEff.Success (w + 1))) (FEff.Success (5 + 1)) hall1 rfl
  · exact (claim2_failure_unwinds (V := Nat) 0 5).2.2
      [Continuation.bind (fun v => Except.ok (FEff.Success v))] hall1


/-- Claim C3: for every function f and every materialized Error node, both
flatMap and map return that very same node unchanged (the method returns
this; structurally, the result is the unchanged Failure node), and f is
never invoked: the result is the same for every f both at construction time
(first two conjuncts) and when the resulting effect is run by the
interpreter, which rejects with the original error after one loop iteration
without ever consulting f (last two conjuncts). -/
theorem claim3_error_node_flatMap_map_identity {V : Type} :
    (∀ (e : V) (f : V → Except V (FEff V)), FEff.flatMapM (.Failure e) f = .Failure e) ∧
    (∀ (e : V) (g : V → Except V V), FEff.mapM (.Failure e) g = .Failure e) ∧
    (∀ (env e : V) (f : V → Except V (FEff V)),
        Fiber.run env 1 (FEff.flatMapM (.Failure e) f, []) = some (.error e)) ∧
    (∀ (env e : V) (g : V → Except V V),
        Fiber.run env 1 (FEff.mapM (.Failure e) g, []) = some (.error e)) := by
  refine ⟨fun e f => rfl, fun e g => rfl, fun env e f => ?_, fun env e g => ?_⟩
  · simp [FEff.flatMapM, Fiber.run, Fiber.step, Fiber.unwindStack]
  · simp [FEff.mapM, Fiber.run, Fiber.step, Fiber.unwindStack]

/-- A frame whose isBind is false is a rescue frame holding some handler. -/
theorem isRescue_elim {V : Type} :
    ∀ f : Continuation V, f.isBind = false → ∃ fn, f = .rescue fn := by
  intro f hf
  cases f with
  | bind fn => simp [Continuation.isBind] at hf
  | rescue fn => exact ⟨fn, rfl⟩

/-- On the success path, popping discards every rescue frame above the
topmost bind frame and returns that frame's continuation with the stack
below it. -/
theorem popContinuation_finds_bind {V : Type} :
    ∀ (s1 : List (Continuation V)) (fn : V → Except V (FEff V)) (s2 : List (Continuation V)),
      (∀ f ∈ s1, f.isBind = false) →
      Fiber.popContinuation (s1 ++ .bind fn :: s2) = some (fn, s2) := by
  intro s1
  induction s1 with
  | nil => intro fn s2 _; rfl
  | cons f s1 ih =>
    intro fn s2 hall
    obtain ⟨g, rfl⟩ := isRescue_elim f (hall f (by simp))
    show Fiber.popContinuation (s1 ++ .bind fn :: s2) = some (fn, s2)
    exact ih fn s2 (fun g2 hg => hall g2 (by simp [hg]))

/-- Popping a stack made of rescue frames only finds no continuation. -/
theorem popContinuation_all_rescue {V : Type} :
    ∀ s : List (Continuation V), (∀ f ∈ s, f.isBind = false) →
      Fiber.popContinuation s = none := by
  intro s
  induction s with
  | nil => intro _; rfl
  | cons f s ih =>
    intro hall
    obtain ⟨g, rfl⟩ := isRescue_elim f (hall f (by simp))
    show Fiber.popContinuation s = none
    exact ih (fun g2 hg => hall g2 (by simp [hg]))


/-- Claim C9: an effect with its environment provided ignores the
environment it is later run with; running provide(r) with any environment
r2 is running the original effect with r, state, elapsed time and
settlement included. -/
theorem claim9_provide_ignores_later_env {ρ ρ2 σ α : Type} :
    ∀ (self : Eff ρ σ α) (r : ρ) (env2 : ρ2) (s : σ),
      Eff.provide self r env2 s = self r s :=
  fun _ _ _ _ => rfl

/-- Claim C7: bracket sequences acquire, then use on the acquired resource,
and runs release exactly once whether use resolves, returns a rejecting
effect, or throws synchronously, the final settlement being use's value or
use's failure (the release-invocation count is the Nat state, bumped once
on every path); and if acquire itself fails, its error propagates while
use and release (universally quantified in the first conjunct) are never
consulted. -/
theorem claim7_bracket {ρ α β γ : Type} :
    (∀ (e : EV) (σ : Type) (release : JSFun σ α (Eff ρ σ β)) (use : JSFun σ α (Eff ρ σ γ))
        (env : ρ) (s : σ),
        Eff.bracket (Eff.failure e) release use env s = (s, 0, .error e)) ∧
    (∀ (a : α) (eu : EV) (b : β) (env : ρ) (k : Nat),
        Eff.bracket (Eff.success a)
          (fun _ k2 => (k2 + 1, .ok (Eff.success b)))
          (fun _ k2 => ((k2 : Nat), (.error eu : Except EV (Eff ρ Nat γ)))) env k =
          (k + 1, 0, .error eu)) ∧
    (∀ (a : α) (g : α → γ) (b : β) (env : ρ) (k : Nat),
        Eff.bracket (Eff.success a)
          (fun _ k2 => (k2 + 1, .ok (Eff.success b)))
          (fun a2 k2 => ((k2 : Nat), .ok (Eff.success (g a2)))) env k =
          (k + 1, 0, .ok (g a))) ∧
    (∀ (a : α) (eu : EV) (b : β) (env : ρ) (k : Nat),
        Eff.bracket (Eff.success a)
          (fun _ k2 => (k2 + 1, .ok (Eff.success b)))
          (fun _ k2 => ((k2 : Nat), .ok (Eff.failure (α := γ) eu))) env k =
          (k + 1, 0, .error eu)) :=
  ⟨fun _ _ _ _ _ _ => rfl, fun _ _ _ _ _ => rfl, fun _ _ _ _ _ => rfl, fun _ _ _ _ _ => rfl⟩

/-- Claim C8: timeout races the effect against an internally built effect
that waits the configured duration and then rejects with a TimeoutError
carrying exactly that duration (first conjunct, by unfolding); hence
success(1).delay(10).timeout(0) rejects with TimeoutError 0 and
success(1).timeout(200) resolves to 1. -/
theorem claim8_timeout {ρ σ α : Type} :
    (∀ (self : Eff ρ σ α) (ms : Nat),
        Eff.timeout self ms =
          Eff.race [self, fun _ s => (s, ms, .error (.timeoutError ms))]) ∧
    (∀ (env : ρ) (s : σ),
        Eff.timeout (Eff.delay (Eff.success 1) 10) 0 env s =
          (s, 0, .error (.timeoutError 0))) ∧
    (∀ (env : ρ) (s : σ),
        Eff.timeout (Eff.success 1) 200 env s = (s, 0, .ok 1)) :=
  ⟨fun _ _ => rfl, fun _ _ => rfl, fun _ _ => rfl⟩

/-- Claim C10: tap runs the effect, then runs the effect returned by fn on
its value v, and resolves with the original v, discarding the side
effect's result (first conjunct); if the side-effecting effect rejects
(second conjunct) or fn itself throws (third conjunct), the whole effect
rejects with that error even though the underlying effect resolved. -/
theorem claim10_tap {ρ σ α β : Type} :
    ∀ (self : Eff ρ σ α) (fn : JSFun σ α (Eff ρ σ β)) (env : ρ) (s s1 : σ) (t : Nat) (v : α),
      self env s = (s1, t, .ok v) →
      (∀ (s2 : σ) (eff : Eff ρ σ β) (s3 : σ) (t2 : Nat) (b : β),
          fn v s1 = (s2, .ok eff) → eff env s2 = (s3, t2, .ok b) →
          Eff.tap self fn env s = (s3, t + t2, .ok v)) ∧
      (∀ (s2 : σ) (eff : Eff ρ σ β) (s3 : σ) (t2 : Nat) (e : EV),
          fn v s1 = (s2, .ok eff) → eff env s2 = (s3, t2, .error e) →
          Eff.tap self fn env s = (s3, t + t2, .error e)) ∧
      (∀ (s2 : σ) (e : EV),
          fn v s1 = (s2, .error e) → Eff.tap self fn env s = (s2, t, .error e)) := by
  intro self fn env s s1 t v hself
  refine ⟨?_, ?_, ?_⟩
  · intro s2 eff s3 t2 b hfn heff
    simp [Eff.tap, hself, hfn, heff]
  · intro s2 eff s3 t2 e hfn heff
    simp [Eff.tap, hself, hfn, heff]
  · intro s2 e hfn
    simp [Eff.tap, hself, hfn]

/-- Witness for claim C10 at concrete inputs: tapping success(7) with a
counting callback resolves to 7 with the counter bumped once; tapping with
a callback whose effect rejects, or which throws, rejects with that error
while the counter still records the single invocation. -/
theorem claim10_tap_witness :
    Eff.tap (Eff.success 7)
        (fun v k => ((k + 1 : Nat), Except.ok (Eff.success (v * 2)))) 0 0 =
      (1, 0, .ok 7) ∧
    Eff.tap (Eff.success 7)
        (fun _ k => ((k + 1 : Nat), Except.ok (Eff.failure (α := Nat) (.custom 3)))) 0 0 =
      (1, 0, .error (.custom 3)) ∧
    Eff.tap (Eff.success 7)
        (fun _ k => ((k + 1 : Nat), (Except.error (.custom 4) : Except EV (Eff Nat Nat Nat)))) 0 0 =
      (1, 0, .error (.custom 4)) :=
  ⟨(claim10_tap (Eff.success 7)
      (fun v k => (k + 1, Except.ok (Eff.success (v * 2)))) 0 0 0 0 7 rfl).1
      1 (Eff.success (7 * 2)) 1 0 (7 * 2) rfl rfl,
    (claim10_tap (Eff.success 7)
      (fun _ k => (k + 1, Except.ok (Eff.failure (.custom 3)))) 0 0 0 0 7 rfl).2.1
      1 (Eff.failure (.custom 3)) 1 0 (.custom 3) rfl rfl,
    (claim10_tap (Eff.success 7)
      (fun _ k => (k + 1, Except.error (.custom 4))) 0 0 0 0 7 rfl).2.2
      1 (.custom 4) rfl⟩

/-- Claim C4: on the success path a rescue (Catch) frame is inert — with a
success value as the current node the interpreter pops and discards every
Catch frame above the next FlatMap frame (or the whole stack) without
invoking their handlers, the outcome being the same for every choice of
handlers (first two conjuncts); consequently, in the combinator class, a
catch placed after a chain of flatMap steps has its handler invoked exactly
once (the counter state bumps by one) when the effect under it rejects, and
never invoked (the counter is untouched) when it resolves (last two
conjuncts; the witness instantiates the effect under the catch with a
flatMap chain). -/
theorem claim4_rescue_inert_on_success {V ρ α : Type} :
    (∀ (v : V) (s1 : List (Continuation V)) (fn : V → Except V (FEff V))
        (s2 : List (Continuation V)),
        (∀ f ∈ s1, f.isBind = false) →
        Fiber.runContinuation v (s1 ++ .bind fn :: s2) =
          (match fn v with
           | .ok eff => (eff, s2)
           | .error e => (.Failure e, s2))) ∧
    (∀ (v : V) (s : List (Continuation V)), (∀ f ∈ s, f.isBind = false) →
        Fiber.runContinuation v s = (.Done v, [])) ∧
    (∀ (self : Eff ρ Nat α) (d : α) (env : ρ) (k s1 t : Nat) (e : EV),
        self env k = (s1, t, .error e) →
        Eff.catchE self (fun _ k2 => (k2 + 1, .ok (Eff.success d))) env k =
          (s1 + 1, t, .ok d)) ∧
    (∀ (self : Eff ρ Nat α) (d : α) (env : ρ) (k s1 t : Nat) (v : α),
        self env k = (s1, t, .ok v) →
        Eff.catchE self (fun _ k2 => (k2 + 1, .ok (Eff.success d))) env k =
          (s1, t, .ok v)) := by
  refine ⟨?_, ?_, ?_, ?_⟩
  · intro v s1 fn s2 hall
    rw [Fiber.runContinuation, popContinuation_finds_bind s1 fn s2 hall]
  · intro v s hall
    rw [Fiber.runContinuation, popContinuation_all_rescue s hall]
  · intro self d env k s1 t e hself
    simp [Eff.catchE, hself, Eff.success]
  · intro self d env k s1 t v hself
    simp [Eff.catchE, hself]

/-- Witness for claim C4 at concrete inputs: a success value 3 over a
rescue frame stacked on a bind frame runs the bind continuation (yielding
Success 4) with the rescue frame discarded; over rescue frames only it
terminates with Done 3; a counting catch under which a two-step flatMap
chain rejects bumps the counter to 1 and resolves with the fallback 42; the
same catch over a resolving flatMap chain leaves the counter at 0. -/
theorem claim4_rescue_inert_on_success_witness :
    Fiber.runContinuation 3
        [Continuation.rescue (fun w => Except.ok (FEff.Success w)),
          Continuation.bind (fun v => Except.ok (FEff.Success (v + 1)))] =
      (FEff.Success (3 + 1), ([] : List (Continuation Nat))) ∧
    Fiber.runContinuation 3
        [Continuation.rescue (fun w => Except.ok (FEff.Success w))] =
      (FEff.Done 3, ([] : List (Continuation Nat))) ∧
    Eff.catchE (Eff.flatMap (Eff.success 0) (fun _ k => ((k : Nat), .ok (Eff.failure (α := Nat) (.custom 7)))))
        (fun _ k2 => (k2 + 1, .ok (Eff.success 42))) 0 0 =
      (0 + 1, 0, .ok 42) ∧
    Eff.catchE (Eff.flatMap (Eff.success 0) (fun v k => ((k : Nat), .ok (Eff.success (v + 1)))))
        (fun _ k2 => (k2 + 1, .ok (Eff.success 42))) 0 0 =
      (0, 0, .ok 1) := by
  have hall : ∀ f ∈ [Continuation.rescue (V := Nat) (fun w => Except.ok (FEff.Success w))],
      f.isBind = false := by
    intro f hf
    simp at hf
    subst hf
    rfl
  refine ⟨?_, ?_, ?_, ?_⟩
  · exact (claim4_rescue_inert_on_success (ρ := Nat) (α := Nat)).1 3
      [Continuation.rescue (fun w => Except.ok (FEff.Success w))]
      (fun v => Except.ok (FEff.Success (v + 1))) [] hall
  · exact (claim4_rescue_inert_on_success (ρ := Nat) (α := Nat)).2.1 3
      [Continuation.rescue (fun w => Except.ok (FEff.Success w))] hall
  · exact (claim4_rescue_inert_on_success (V := Nat)).2.2.1
      (Eff.flatMap (Eff.success 0) (fun _ k => (k, .ok (Eff.failure (.custom 7)))))
      42 0 0 0 0 (.custom 7) rfl
  · exact (claim4_rescue_inert_on_success (V := Nat)).2.2.2
      (Eff.flatMap (Eff.success 0) (fun v k => (k, .ok (Eff.success (v + 1)))))
      42 0 0 0 0 1 rfl

/-- A failing prefix decides the whole sequential traversal: whatever list
is appended after it, the result is unchanged, so no later element is ever
examined. -/
theorem mapSeriesGo_append_error {ρ σ α β : Type} (env : ρ) (fn : JSFun σ α (Eff ρ σ β)) :
    ∀ (xs ys : List α) (s s1 : σ) (t : Nat) (e : EV),
      Eff.mapSeriesGo env fn xs s = (s1, t, .error e) →
      Eff.mapSeriesGo env fn (xs ++ ys) s = (s1, t, .error e) := by
  intro xs
  induction xs with
  | nil =>
    intro ys s s1 t e h
    simp [Eff.mapSeriesGo] at h
  | cons v vs ih =>
    intro ys s s1 t e h
    simp only [Eff.mapSeriesGo, List.cons_append] at h ⊢
    rcases hfn : fn v s with ⟨s2, r⟩
    cases r with
    | error e2 =>
      simp [hfn] at h ⊢
      exact h
    | ok eff =>
      rcases heff : eff env s2 with ⟨s3, t3, r3⟩
      cases r3 with
      | error e3 =>
        simp [hfn, heff] at h ⊢
        exact h
      | ok b =>
        rcases hrec : Eff.mapSeriesGo env fn vs s3 with ⟨s4, t4, r4⟩
        cases r4 with
        | ok bs => simp [hfn, heff, hrec] at h
        | error e4 =>
          have h2 := ih ys s3 s4 t4 e4 hrec
          simp [hfn, heff, hrec, h2] at h ⊢
          exact h

/-- A resolving prefix of the sequential traversal composes: traversing
xs ++ ys runs xs first from the initial state, then ys from the state and
time xs left behind, prepending xs' results. -/
theorem mapSeriesGo_append_ok {ρ σ α β : Type} (env : ρ) (fn : JSFun σ α (Eff ρ σ β)) :
    ∀ (xs ys : List α) (s s1 : σ) (t : Nat) (bs : List β),
      Eff.mapSeriesGo env fn xs s = (s1, t, .ok bs) →
      Eff.mapSeriesGo env fn (xs ++ ys) s =
        (match Eff.mapSeriesGo env fn ys s1 with
         | (s2, t2, .ok cs) => (s2, t + t2, .ok (bs ++ cs))
         | (s2, t2, .error e) => (s2, t + t2, .error e)) := by
  intro xs
  induction xs with
  | nil =>
    intro ys s s1 t bs h
    simp only [Eff.mapSeriesGo] at h
    obtain ⟨rfl, rfl, rfl⟩ : s = s1 ∧ 0 = t ∧ ([] : List β) = bs := by
      simpa using h
    rcases hy : Eff.mapSeriesGo env fn ys s with ⟨s2, t2, r2⟩
    cases r2 with
    | ok cs => simp [hy]
    | error e => simp [hy]
  | cons v vs ih =>
    intro ys s s1 t bs h
    simp only [Eff.mapSeriesGo, List.cons_append] at h ⊢
    rcases hfn : fn v s with ⟨s2, r⟩
    cases r with
    | error e2 => simp [hfn] at h
    | ok eff =>
      rcases heff : eff env s2 with ⟨s3, t3, r3⟩
      cases r3 with
      | error e3 => simp [hfn, heff] at h
      | ok b =>
        rcases hrec : Eff.mapSeriesGo env fn vs s3 with ⟨s4, t4, r4⟩
        cases r4 with
        | error e4 => simp [hfn, heff, hrec] at h
        | ok bs4 =>
          obtain ⟨rfl, rfl, rfl⟩ : s4 = s1 ∧ t3 + t4 = t ∧ b :: bs4 = bs := by
            simpa [hfn, heff, hrec] using h
          have h2 := ih ys s3 s4 t4 bs4 hrec
          rcases hy : Eff.mapSeriesGo env fn ys s4 with ⟨s5, t5, r5⟩
          cases r5 with
          | ok cs => simp [hfn, heff, h2, hy, Nat.add_assoc]
          | error e5 => simp [hfn, heff, h2, hy, Nat.add_assoc]

/-- Claim C5: sequential traversal applies the mapping function strictly
left to right, awaiting each element's effect before the next (third
conjunct: the traversal of xs ++ ys is xs' traversal composed with ys'
from the state xs produced), and is fail-fast: if the first element's
effect rejects, the result equals that rejection for every tail whatsoever
(first conjunct), and more generally a rejecting prefix decides the result
for every appended suffix, so the mapping function is never applied to any
later element and the traversal rejects with the first error (second
conjunct); concretely, for effects A, B (rejecting), C combined
sequentially, the counter records exactly A's single invocation and C
never executes (fourth conjunct). -/
theorem claim5_mapSeries_fail_fast {ρ σ α β : Type} :
    (∀ (fn : JSFun σ α (Eff ρ σ β)) (env : ρ) (x : α) (rest : List α) (s s1 : σ)
        (eff : Eff ρ σ β) (s2 : σ) (t : Nat) (e : EV),
        fn x s = (s1, .ok eff) → eff env s1 = (s2, t, .error e) →
        Eff.mapSeries (x :: rest) fn env s = (s2, t, .error e)) ∧
    (∀ (fn : JSFun σ α (Eff ρ σ β)) (env : ρ) (xs ys : List α) (s s1 : σ) (t : Nat) (e : EV),
        Eff.mapSeries xs fn env s = (s1, t, .error e) →
        Eff.mapSeries (xs ++ ys) fn env s = (s1, t, .error e)) ∧
    (∀ (fn : JSFun σ α (Eff ρ σ β)) (env : ρ) (xs ys : List α) (s s1 : σ) (t : Nat) (bs : List β),
        Eff.mapSeries xs fn env s = (s1, t, .ok bs) →
        Eff.mapSeries (xs ++ ys) fn env s =
          (match Eff.mapSeries ys fn env s1 with
           | (s2, t2, .ok cs) => (s2, t + t2, .ok (bs ++ cs))
           | (s2, t2, .error e) => (s2, t + t2, .error e))) ∧
    (∀ env : ρ,
        Eff.allSeries
            [fun _ k => ((k + 1 : Nat), 0, .ok (10 : Nat)),
              Eff.failure (.custom 1),
              fun _ k => ((k + 1 : Nat), 0, .ok 30)] env 0 =
          (1, 0, .error (.custom 1))) := by
  refine ⟨?_, ?_, ?_, fun env => rfl⟩
  · intro fn env x rest s s1 eff s2 t e hfn heff
    show Eff.mapSeriesGo env fn (x :: rest) s = (s2, t, .error e)
    simp [Eff.mapSeriesGo, hfn, heff]
  · intro fn env xs ys s s1 t e h
    exact mapSeriesGo_append_error env fn xs ys s s1 t e h
  · intro fn env xs ys s s1 t bs h
    exact mapSeriesGo_append_ok env fn xs ys s s1 t bs h

/-- Witness for claim C5 at concrete inputs: a traversal whose first
element's effect rejects yields that rejection with the tail ignored; a
rejecting singleton prefix decides the appended traversal; a resolving
singleton prefix composes with the suffix. -/
theorem claim5_mapSeries_fail_fast_witness :
    Eff.mapSeries [Eff.failure (ρ := Nat) (σ := Nat) (α := Nat) (.custom 2), Eff.success 5]
        Eff.identityFn 0 0 = (0, 0, .error (.custom 2)) ∧
    Eff.mapSeries ([Eff.failure (ρ := Nat) (σ := Nat) (α := Nat) (.custom 2)] ++ [Eff.success 5])
        Eff.identityFn 0 0 = (0, 0, .error (.custom 2)) ∧
    Eff.mapSeries ([Eff.success (ρ := Nat) (σ := Nat) 4] ++ [Eff.success 5])
        Eff.identityFn 0 0 = (0, 0, .ok [4, 5]) :=
  ⟨(claim5_mapSeries_fail_fast.1 Eff.identityFn 0 (Eff.failure (.custom 2)) [Eff.success 5]
      0 0 (Eff.failure (.custom 2)) 0 0 (.custom 2) rfl rfl),
    (claim5_mapSeries_fail_fast.2.1 Eff.identityFn 0 [Eff.failure (.custom 2)] [Eff.success 5]
      0 0 0 (.custom 2) rfl),
    (claim5_mapSeries_fail_fast.2.2.1 Eff.identityFn 0 [Eff.success 4] [Eff.success 5]
      0 0 0 [4] rfl)⟩

/-- The construction loop over a pure mapping function starts one
immediately-resolved branch per element, in input order, and leaves the
state it was given. -/
theorem startLoop_pure {ρ σ α β : Type} (g : α → β) (env : ρ) :
    ∀ (values : List α) (s : σ),
      Eff.startLoop env (fun v s2 => (s2, .ok (Eff.success (g v)))) values s =
        (s, .ok (values.map (fun v => ((0 : Nat), (Except.ok (g v) : Except EV β))))) := by
  intro values
  induction values with
  | nil => intro s; rfl
  | cons v vs ih =>
    intro s
    simp [Eff.startLoop, Eff.success, ih s]

/-- A list of resolved branches holds no rejection. -/
theorem firstRejection_pure {α β : Type} (g : α → β) :
    ∀ values : List α,
      Eff.firstRejection
          (values.map (fun v => ((0 : Nat), (Except.ok (g v) : Except EV β)))) = none := by
  intro values
  induction values with
  | nil => rfl
  | cons v vs ih => simpa [Eff.firstRejection] using ih

/-- Immediately resolved branches all settle at time zero. -/
theorem settleTime_pure {α β : Type} (g : α → β) :
    ∀ values : List α,
      Eff.settleTime
          (values.map (fun v => ((0 : Nat), (Except.ok (g v) : Except EV β)))) = 0 := by
  intro values
  induction values with
  | nil => rfl
  | cons v vs ih => simpa [Eff.settleTime] using ih

/-- Collecting the resolved branches of a pure traversal returns the mapped
values in input order. -/
theorem okValues_pure {α β : Type} (g : α → β) :
    ∀ values : List α,
      Eff.okValues
          (values.map (fun v => ((0 : Nat), (Except.ok (g v) : Except EV β)))) =
        values.map g := by
  intro values
  induction values with
  | nil => rfl
  | cons v vs ih => simpa [Eff.okValues] using ih

/-- Claim C6: parallel traversal starts the effect of every element — with
a pure mapping function the collected results preserve the input order for
every input list (first conjunct) — and failures among other elements do
not prevent any element from being started: over a 3-element list whose
mapping fails for the first element, the counting mapping function is
still invoked 3 times (the final counter state is 3) while the combined
effect rejects with the error the modelled join (Promise.all, first
rejection in settlement order) reports first, namely the first element's
(second conjunct). -/
theorem claim6_parallel_traversal {ρ α β : Type} :
    (∀ (σ : Type) (g : α → β) (values : List α) (env : ρ) (s : σ),
        Eff.mapPar values (fun v s2 => (s2, .ok (Eff.success (g v)))) env s =
          (s, 0, .ok (values.map g))) ∧
    (∀ env : ρ,
        Eff.mapPar [0, 1, 2]
          (fun v k => ((k + 1 : Nat),
            .ok (if v = 0 then Eff.failure (.custom 9) else Eff.success v))) env 0 =
          (3, 0, .error (.custom 9))) := by
  constructor
  · intro σ g values env s
    simp [Eff.mapPar, Eff.promiseAll, startLoop_pure g env values s,
      firstRejection_pure g values, settleTime_pure g values, okValues_pure g values]
  · intro env
    rfl

end Janeiro
